import Mathlib

/-
Verification of the signal-processing core of the ITU-Racing FSAE signal
analyzer (src/processing/signal_processing.py, class SignalProcessor).

Modelling conventions:
- Python floats are modelled by exact rationals (ℚ); numpy arrays by lists.
- Python exceptions are modelled by an `Except PyErr` result: `ZeroDivisionError`
  for a float division by zero, `ValueError msg` for the errors numpy/scipy raise.
- External numeric library kernels whose numeric content never matters to the
  properties below are universally quantified function parameters:
  `npfft` stands for `np.fft.fft` (complex output modelled as (re, im) pairs),
  `npAbs` for the complex `np.abs`, `npsqrt` for `np.sqrt`, and `lfilterFB`
  for one `scipy.signal.lfilter` forward pass inside `filtfilt`.
  Everything the repository's own code does (frequency grids, boolean masks,
  argmax/argsort bookkeeping, slicing, window partitioning, cutoff
  normalization, error checks) is modelled exactly.
- numpy boolean-mask indexing `arr[mask]` is modelled as selecting, in order,
  the indices at which the mask is true, and reading `arr` at those indices.
- Python `int()` truncates toward zero; Python `round()` rounds half to even;
  Python `//` on ints is floor division; Python slices clamp their bounds.
-/

namespace SigProc

/-- Python-level runtime errors observable from the signal-processing core. -/
inductive PyErr where
  | zeroDivisionError
  | valueError (msg : String)
deriving DecidableEq

/-- Python `int()` applied to a float/rational: truncation toward zero. -/
def pyInt (q : ℚ) : ℤ :=
  if q < 0 then ⌈q⌉ else ⌊q⌋

/-- Python `round()` with no digits argument: round half to even. -/
def pyRound (q : ℚ) : ℤ :=
  if q - ⌊q⌋ < 1/2 then ⌊q⌋
  else if 1/2 < q - ⌊q⌋ then ⌊q⌋ + 1
  else if Even ⌊q⌋ then ⌊q⌋ else ⌊q⌋ + 1

/-- `np.mean`: sum divided by length (junk value 0 on the empty list, where
numpy produces NaN with a warning rather than raising). -/
def npMean (l : List ℚ) : ℚ :=
  l.sum / (l.length : ℚ)

/-- Python `range` over an integer bound: empty when the bound is ≤ 0. -/
def pyRangeZ (n : ℤ) : List ℤ :=
  (List.range n.toNat).map (fun k : ℕ => (k : ℤ))

/-- Clamp one bound of a Python slice `l[a:b]` into `0..len`. -/
def pyBound (len : ℕ) (i : ℤ) : ℕ :=
  if i < 0 then ((len : ℤ) + i).toNat else min i.toNat len

/-- Python slice `l[a:b]` (step 1) with int bounds, clamping semantics. -/
def pySlice (l : List ℚ) (a b : ℤ) : List ℚ :=
  (l.take (pyBound l.length b)).drop (pyBound l.length a)

/-- Python slice `l[-n:]` for a nonnegative count `n`.  Note `l[-0:] = l[0:]`
is the whole list. -/
def pySliceLast (l : List ℕ) (n : ℕ) : List ℕ :=
  if n = 0 then l else l.drop (l.length - n)

/-- Numerator of `np.fft.fftfreq(n)[k]`: `k` for `k ≤ (n-1)//2`, else `k - n`. -/
def fftfreqNum (n k : ℕ) : ℤ :=
  if k ≤ (n - 1) / 2 then (k : ℤ) else (k : ℤ) - (n : ℤ)

/-- `np.fft.fftfreq(n, d)`: the DFT sample-frequency grid
`[0, 1, ..., (n-1)//2, -(n//2), ..., -1] / (d*n)`. -/
def fftfreq (n : ℕ) (d : ℚ) : List ℚ :=
  (List.range n).map (fun k => (fftfreqNum n k : ℚ) / (d * (n : ℚ)))

/-- `SignalProcessor.perform_fft(data, fs)`.
`npfft` models `np.fft.fft` (complex values as (re, im) pairs) and `npAbs`
models the complex `np.abs`.  Mirrors the source line by line:
`dt = 1/fs` (ZeroDivisionError when `fs = 0`), `np.fft.fft(data)` (ValueError
on an empty array), `frequencies = np.fft.fftfreq(N, dt)`, boolean mask
`pos_idx = frequencies > 0` applied to both `frequencies` and `fft_result`,
`magnitude = np.abs(fft_result[pos_idx])`, `psd = magnitude ** 2`. -/
def perform_fft (npfft : List ℚ → List (ℚ × ℚ)) (npAbs : ℚ × ℚ → ℚ)
    (data : List ℚ) (fs : ℚ) : Except PyErr (List ℚ × List ℚ × List ℚ) :=
  if fs = 0 then .error .zeroDivisionError
  else if data.length = 0 then .error (.valueError "Invalid number of FFT data points")
  else
    let N := data.length
    let dt := 1 / fs
    let fft_result := npfft data
    let frequencies := fftfreq N dt
    let pos_idx := (List.range N).filter (fun k => decide (0 < frequencies.getD k 0))
    let freq_pos := pos_idx.map (fun k => frequencies.getD k 0)
    let magnitude := pos_idx.map (fun k => npAbs (fft_result.getD k (0, 0)))
    let psd := magnitude.map (fun m => m ^ 2)
    .ok (freq_pos, magnitude, psd)

/-- `np.argmax`: index of the first occurrence of the maximum (0 on `[]`,
where numpy raises; the caller models that raise). -/
def np_argmax : List ℚ → ℕ
  | [] => 0
  | [_] => 0
  | x :: y :: ys =>
    let j := np_argmax (y :: ys)
    if x < (y :: ys).getD j 0 then j + 1 else 0

/-- `SignalProcessor.find_resonance(frequencies, psd, round_to)`:
`peak_idx = np.argmax(psd)` (ValueError on empty `psd`),
`resonance_freq = frequencies[peak_idx]`,
`resonance_rounded = round(resonance_freq / round_to) * round_to`. -/
def find_resonance (frequencies psd : List ℚ) (round_to : ℚ) :
    Except PyErr (ℚ × ℚ) :=
  if psd = [] then .error (.valueError "attempt to get argmax of an empty sequence")
  else
    let peak_idx := np_argmax psd
    let resonance_freq := frequencies.getD peak_idx 0
    .ok (resonance_freq, (pyRound (resonance_freq / round_to) : ℚ) * round_to)

/-- `np.argsort(psd)`: indices ordered by ascending value.  numpy's default
quicksort leaves the order of ties unspecified; following the design note in
the spec we pin one deterministic stable order (a stable comparison sort). -/
def np_argsort (l : List ℚ) : List ℕ :=
  List.insertionSort (fun i j => l.getD i 0 ≤ l.getD j 0) (List.range l.length)

/-- `SignalProcessor.find_top_peaks(frequencies, psd, n_peaks)`:
`top_idx = np.argsort(psd)[-n_peaks:][::-1]`, then the paired
`(frequencies[idx], psd[idx])` list. -/
def find_top_peaks (frequencies psd : List ℚ) (n_peaks : ℕ) : List (ℚ × ℚ) :=
  let top_idx := (pySliceLast (np_argsort psd) n_peaks).reverse
  top_idx.map (fun idx => (frequencies.getD idx 0, psd.getD idx 0))

/-- Symbolic filter coefficients: which scipy design routine was invoked with
which (order, normalized cutoffs, band type, ripple) arguments.  The routines
are deterministic, so two invocations yield the same `(b, a)` arrays iff the
routine and its arguments coincide.  A scalar `Wn` is the one-element list. -/
inductive FilterCoefficients where
  | butter (order : ℤ) (Wn : List ℚ) (btype : String)
  | cheby1 (order : ℤ) (ripple : ℚ) (Wn : List ℚ) (btype : String)
  | bessel (order : ℤ) (Wn : List ℚ) (btype : String)
deriving DecidableEq

/-- scipy `iirfilter` digital cutoff validation: every normalized critical
frequency must lie strictly within (0, 1). -/
def scipyWnOK (Wn : List ℚ) : Bool :=
  Wn.all (fun w => decide (0 < w) && decide (w < 1))

/-- Common validation performed inside `scipy.signal.butter` / `bessel`
before producing coefficients (cutoffs in range, nonnegative order). -/
def scipyDesign (mk : ℤ → List ℚ → String → FilterCoefficients)
    (order : ℤ) (Wn : List ℚ) (btype : String) : Except PyErr FilterCoefficients :=
  if !scipyWnOK Wn then
    .error (.valueError "Digital filter critical frequencies must be between 0 and 1")
  else if order < 0 then
    .error (.valueError "Filter order must be a nonnegative integer")
  else
    .ok (mk order Wn btype)

/-- `SignalProcessor.design_filter(fs, fc, order, filter_type, design, fc_high, ripple)`.
Mirrors the source: `nyq = fs/2`; for band responses a missing `fc_high`
silently defaults to `fc * 2` and `Wn = [fc/nyq, fc_high/nyq]`, otherwise
`Wn = fc/nyq`; dispatch on the `design` string to `signal.butter`,
`signal.cheby1` (which first validates a nonnegative ripple) or
`signal.bessel`, else `ValueError` for an unknown design. -/
def design_filter (fs fc : ℚ) (order : ℤ) (filter_type : String) (design : String)
    (fc_high : Option ℚ) (ripple : ℚ) : Except PyErr FilterCoefficients :=
  let nyq := fs / 2
  let Wn : List ℚ :=
    if filter_type = "bandpass" ∨ filter_type = "bandstop" then
      [fc / nyq, (fc_high.getD (fc * 2)) / nyq]
    else
      [fc / nyq]
  if design = "butter" then
    scipyDesign .butter order Wn filter_type
  else if design = "cheby1" then
    if ripple < 0 then .error (.valueError "passband ripple must be positive")
    else scipyDesign (fun o w t => .cheby1 o ripple w t) order Wn filter_type
  else if design = "bessel" then
    scipyDesign .bessel order Wn filter_type
  else
    .error (.valueError "Unknown filter design")

/-- scipy `odd_ext(x, n)`: odd extension of `x` by `n` reflected samples on
each end, `2*x[0] - x[n..1]` on the left and `2*x[-1] - x[-2..-n-1]` on the
right (identity when `n = 0`). -/
def odd_ext (x : List ℚ) (n : ℕ) : List ℚ :=
  if n = 0 then x
  else
    ((x.drop 1).take n).reverse.map (fun v => 2 * x.headD 0 - v)
      ++ x ++
      ((x.drop (x.length - 1 - n)).take n).reverse.map (fun v => 2 * x.getLastD 0 - v)

/-- `scipy.signal.filtfilt(b, a, x)` with its defaults (`method="pad"`,
`padtype="odd"`, `padlen = 3 * max(len(a), len(b))`): raises ValueError when
`len(x) <= padlen`, otherwise odd-extends `x` by `padlen` on each side, runs
a forward `lfilter` pass, a reversed pass, and slices the padding back off
(`y[edge:-edge]`).  `lfilterFB` models one `lfilter` pass (a length-preserving
numeric kernel; length preservation is hypothesised where needed). -/
def filtfilt (lfilterFB : List ℚ → List ℚ) (b a x : List ℚ) :
    Except PyErr (List ℚ) :=
  let ntaps := max a.length b.length
  let edge := ntaps * 3
  if x.length ≤ edge then
    .error (.valueError "The length of the input vector x must be greater than padlen")
  else
    let ext := odd_ext x edge
    let y0 := lfilterFB ext
    let y := (lfilterFB y0.reverse).reverse
    .ok ((y.drop edge).take (y.length - 2 * edge))

/-- `SignalProcessor.apply_filter(data, b, a)`: delegates to
`signal.filtfilt(b, a, data)`. -/
def apply_filter (lfilterFB : List ℚ → List ℚ) (data b a : List ℚ) :
    Except PyErr (List ℚ) :=
  filtfilt lfilterFB b a data

/-- `SignalProcessor.compute_rms_windowed(data, fs, window_seconds)`:
`window_size = int(fs * window_seconds)`;
`n_windows = len(data) // window_size` (ZeroDivisionError when
`window_size = 0`); for each `i in range(n_windows)` the slice
`data[i*window_size : (i+1)*window_size]` contributes
`sqrt(mean(window ** 2))` and timestamp `(i + 0.5) * window_size / fs`;
`overall_rms = sqrt(mean(data ** 2))` over the entire signal.
`npsqrt` models `np.sqrt`. -/
def compute_rms_windowed (npsqrt : ℚ → ℚ) (data : List ℚ) (fs window_seconds : ℚ) :
    Except PyErr (List ℚ × List ℚ × ℚ) :=
  let window_size : ℤ := pyInt (fs * window_seconds)
  if window_size = 0 then .error .zeroDivisionError
  else
    let n_windows : ℤ := Int.fdiv (data.length : ℤ) window_size
    let idx := pyRangeZ n_windows
    let rms_values := idx.map (fun i =>
      npsqrt (npMean ((pySlice data (i * window_size) ((i + 1) * window_size)).map
        (fun v => v ^ 2))))
    let times := idx.map (fun i : ℤ => ((i : ℚ) + 1/2) * (window_size : ℚ) / fs)
    let overall_rms := npsqrt (npMean (data.map (fun v => v ^ 2)))
    .ok (times, rms_values, overall_rms)

/-! ### Claim C10: omitted `fc_high` behaves as an explicit `2 * fc` -/

/-- C10 (confirmed): for bandpass/bandstop, calling `design_filter` with
`fc_high` omitted returns exactly the same coefficients as calling it with
`fc_high = 2 * fc` explicitly — the omitted high cutoff is silently defaulted
to twice the low cutoff. -/
theorem design_filter_default_high_cutoff (fs fc : ℚ) (order : ℤ)
    (filter_type design : String) (ripple : ℚ)
    (hband : filter_type = "bandpass" ∨ filter_type = "bandstop") :
    design_filter fs fc order filter_type design none ripple =
      design_filter fs fc order filter_type design (some (2 * fc)) ripple := by
  simp only [design_filter, Option.getD_none, Option.getD_some, if_pos hband,
    mul_comm fc 2]

/-- C10 witness: a concrete bandpass instance of the defaulting equation. -/
theorem design_filter_default_high_cutoff_witness :
    ("bandpass" = "bandpass" ∨ "bandpass" = "bandstop") ∧
      design_filter 1000 100 4 "bandpass" "butter" none (1/2) =
        design_filter 1000 100 4 "bandpass" "butter" (some (2 * 100)) (1/2) :=
  ⟨Or.inl rfl,
   design_filter_default_high_cutoff 1000 100 4 "bandpass" "butter" (1/2) (Or.inl rfl)⟩

/-! ### Claim C1: missing `fc_high` for band responses -/

/-- C1 counterexample: a bandpass spec with `fc_high` omitted does NOT fail
with an invalid-cutoff error; `design_filter` silently defaults the high
cutoff to `2 * fc = 200` and returns Butterworth coefficients for the
normalized band [1/5, 2/5]. -/
theorem design_filter_missing_high_no_error :
    design_filter 1000 100 4 "bandpass" "butter" none (1/2) =
      .ok (.butter 4 [1/5, 2/5] "bandpass") := by
  norm_num [design_filter, scipyDesign, scipyWnOK, List.all]

/-- C1 (corrected): for every bandpass or bandstop spec in which `fc_high` is
not supplied, with a known design family, nonnegative order and ripple,
`0 < fc` and the defaulted high cutoff `2 * fc` below Nyquist, `design_filter`
does not fail: it substitutes `fc_high = fc * 2` and returns coefficients. -/
theorem design_filter_missing_high_defaults (fs fc : ℚ) (order : ℤ)
    (filter_type design : String) (ripple : ℚ)
    (hband : filter_type = "bandpass" ∨ filter_type = "bandstop")
    (hdesign : design = "butter" ∨ design = "cheby1" ∨ design = "bessel")
    (horder : 0 ≤ order) (hripple : 0 ≤ ripple)
    (hfs : 0 < fs) (hfc : 0 < fc) (hhi : fc * 2 < fs / 2) :
    ∃ c, design_filter fs fc order filter_type design none ripple = .ok c := by
  have hnyq : 0 < fs / 2 := by positivity
  have h1 : 0 < fc / (fs / 2) := by positivity
  have h2 : fc / (fs / 2) < 1 := by
    rw [div_lt_one hnyq]; linarith
  have h3 : 0 < fc * 2 / (fs / 2) := by positivity
  have h4 : fc * 2 / (fs / 2) < 1 := by
    rw [div_lt_one hnyq]; linarith
  have hWn : scipyWnOK [fc / (fs / 2), fc * 2 / (fs / 2)] = true := by
    simp [scipyWnOK, h1, h2, h3, h4]
  have hord : ¬order < 0 := not_lt.mpr horder
  have hrip : ¬ripple < 0 := not_lt.mpr hripple
  rcases hdesign with hd | hd | hd <;>
    simp [design_filter, scipyDesign, hd, if_pos hband, Option.getD_none, hWn, hord, hrip]

/-- C1 witness: concrete instantiation of the corrected claim. -/
theorem design_filter_missing_high_defaults_witness :
    (∃ c, design_filter 1000 50 4 "bandstop" "cheby1" none 1 = .ok c) :=
  design_filter_missing_high_defaults 1000 50 4 "bandstop" "cheby1" 1
    (Or.inr rfl) (Or.inr (Or.inl rfl)) (by norm_num) (by norm_num)
    (by norm_num) (by norm_num) (by norm_num)

/-! ### Claim C9: failure condition of `compute_rms_windowed` -/

/-- C9 counterexample: with `fs = 10` and `window_seconds = -1` the window
size `int(fs * window_seconds) = -10` is below 1, yet `compute_rms_windowed`
does not fail: `n_windows = 3 // (-10) = -1`, the loop body never runs, and
an empty result with the overall RMS is returned. -/
theorem compute_rms_windowed_negative_window_no_error :
    ⌊(10 : ℚ) * (-1)⌋ < 1 ∧
      compute_rms_windowed (fun q => q) [1, 2, 3] 10 (-1) = .ok ([], [], 14/3) := by
  have h10 : ((10 : ℚ) * (-1)) = ((-10 : ℤ) : ℚ) := by norm_num
  have hpy : pyInt ((10 : ℚ) * (-1)) = -10 := by
    rw [pyInt, h10, if_pos (by norm_num), Int.ceil_intCast]
  have hfd : (3 : ℤ).fdiv (-10) = -1 := by decide
  have hrange : pyRangeZ (-1) = [] := by decide
  constructor
  · rw [h10, Int.floor_intCast]; norm_num
  · simp only [compute_rms_windowed, hpy, List.length_cons, List.length_nil]
    norm_num [hfd, hrange, npMean]

/-- C9 (corrected): `compute_rms_windowed` fails (with the ZeroDivisionError
of `len(data) // window_size`) exactly when `window_size = int(fs *
window_seconds)` is zero; for every nonzero window size — including negative
ones, where the claim demanded failure — it returns a result. -/
theorem compute_rms_windowed_error_iff (npsqrt : ℚ → ℚ) (data : List ℚ)
    (fs window_seconds : ℚ) :
    (pyInt (fs * window_seconds) = 0 →
      compute_rms_windowed npsqrt data fs window_seconds = .error .zeroDivisionError) ∧
    (pyInt (fs * window_seconds) ≠ 0 →
      ∃ t r o, compute_rms_windowed npsqrt data fs window_seconds = .ok (t, r, o)) := by
  constructor
  · intro h
    simp [compute_rms_windowed, h]
  · intro h
    simp only [compute_rms_windowed, if_neg h]
    exact ⟨_, _, _, rfl⟩

/-- C9 witness: concrete instantiation of the corrected failure condition. -/
theorem compute_rms_windowed_error_iff_witness :
    pyInt ((10 : ℚ) * (-1)) ≠ 0 ∧
      ∃ t r o, compute_rms_windowed (fun q => q) [1, 2, 3] 10 (-1) = .ok (t, r, o) := by
  have h : pyInt ((10 : ℚ) * (-1)) ≠ 0 := by
    norm_num [pyInt, show ((10 : ℚ) * (-1)) = ((-10 : ℤ) : ℚ) by norm_num,
      Int.ceil_intCast]
  exact ⟨h, (compute_rms_windowed_error_iff (fun q => q) [1, 2, 3] 10 (-1)).2 h⟩

/-! ### Claim C3: failure condition of `perform_fft` -/

/-- C3 counterexample: `perform_fft` with the negative sampling rate
`fs = -1` and non-empty data returns a result instead of failing: the
frequency grid is sign-flipped, the mask keeps bin 2, and the call returns
`([1/3], [3], [9])` for the modelled transform. -/
theorem perform_fft_negative_fs_no_error :
    perform_fft (fun l => l.map (fun x => (x, 0))) (fun p => p.1) [1, 2, 3] (-1) =
      .ok ([1/3], [3], [9]) := by
  norm_num [perform_fft, fftfreq, fftfreqNum, List.range_succ, List.filter]

/-- C3 (corrected): `perform_fft` fails exactly when `fs = 0` (the
ZeroDivisionError of `dt = 1/fs`) or `data` is empty (the ValueError of
`np.fft.fft` on a length-0 array); for every `fs ≠ 0` — including the
negative rates the claim said must fail — and non-empty data it returns a
result. -/
theorem perform_fft_error_iff (npfft : List ℚ → List (ℚ × ℚ))
    (npAbs : ℚ × ℚ → ℚ) (data : List ℚ) (fs : ℚ) :
    (fs = 0 → perform_fft npfft npAbs data fs = .error .zeroDivisionError) ∧
    (fs ≠ 0 → data = [] →
      perform_fft npfft npAbs data fs =
        .error (.valueError "Invalid number of FFT data points")) ∧
    (fs ≠ 0 → data ≠ [] → ∃ r, perform_fft npfft npAbs data fs = .ok r) := by
  refine ⟨fun h => by simp [perform_fft, h], fun h he => by simp [perform_fft, h, he], ?_⟩
  intro h hne
  have h0 : ¬data.length = 0 := fun hc => hne (List.length_eq_zero.mp hc)
  simp only [perform_fft, if_neg h, if_neg h0]
  exact ⟨_, rfl⟩

/-- C3 witness: concrete instantiation of the corrected failure condition. -/
theorem perform_fft_error_iff_witness :
    ((-1 : ℚ) ≠ 0) ∧ ([1, 2, 3] : List ℚ) ≠ [] ∧
      ∃ r, perform_fft (fun l => l.map (fun x => (x, 0))) (fun p => p.1)
        [1, 2, 3] (-1) = .ok r := by
  refine ⟨by norm_num, by simp, ?_⟩
  exact (perform_fft_error_iff (fun l => l.map (fun x => (x, 0))) (fun p => p.1)
    [1, 2, 3] (-1)).2.2 (by norm_num) (by simp)

/-! ### Claim C5: `find_resonance` -/

/-- `np_argmax` on a non-empty list returns an in-range index holding the
global maximum, and every strictly earlier entry is strictly smaller (ties
resolved by first occurrence). -/
theorem np_argmax_spec (xs : List ℚ) :
    ∀ x : ℚ, np_argmax (x :: xs) < (x :: xs).length ∧
      (∀ j < (x :: xs).length, (x :: xs).getD j 0 ≤ (x :: xs).getD (np_argmax (x :: xs)) 0) ∧
      (∀ j < np_argmax (x :: xs), (x :: xs).getD j 0 < (x :: xs).getD (np_argmax (x :: xs)) 0) := by
  induction xs with
  | nil =>
    intro x
    refine ⟨by simp [np_argmax], ?_, ?_⟩
    · intro j hj
      simp only [List.length_singleton, Nat.lt_one_iff] at hj
      subst hj
      simp [np_argmax]
    · intro j hj
      simp [np_argmax] at hj
  | cons y ys ih =>
    intro x
    have hrec := ih y
    by_cases h : x < (y :: ys).getD (np_argmax (y :: ys)) 0
    · have hval : np_argmax (x :: y :: ys) = np_argmax (y :: ys) + 1 := by
        simp only [np_argmax]
        rw [if_pos h]
      refine ⟨?_, ?_, ?_⟩
      · rw [hval]
        simpa using Nat.succ_lt_succ hrec.1
      · intro j hj
        rw [hval]
        cases j with
        | zero => simpa using le_of_lt h
        | succ k =>
          simp only [List.getD_cons_succ]
          exact hrec.2.1 k (by simpa using hj)
      · intro j hj
        rw [hval] at hj ⊢
        cases j with
        | zero => simpa using h
        | succ k =>
          simp only [List.getD_cons_succ]
          exact hrec.2.2 k (Nat.lt_of_succ_lt_succ hj)
    · have hval : np_argmax (x :: y :: ys) = 0 := by
        simp only [np_argmax]
        rw [if_neg h]
      push_neg at h
      refine ⟨by simp [hval], ?_, ?_⟩
      · intro j hj
        rw [hval]
        cases j with
        | zero => simp
        | succ k =>
          simp only [List.getD_cons_succ, List.getD_cons_zero]
          exact le_trans (hrec.2.1 k (by simpa using hj)) h
      · intro j hj
        rw [hval] at hj
        exact absurd hj (Nat.not_lt_zero j)

/-- C5 (confirmed): `find_resonance` on an empty `psd` fails (the ValueError
`np.argmax` raises on an empty sequence — the spec labels this condition
InvalidInput); on a non-empty `psd` it returns the frequency at the index of
the first global PSD maximum together with
`round(value / round_to) * round_to` (Python half-to-even rounding). -/
theorem find_resonance_spec (frequencies psd : List ℚ) (round_to : ℚ) :
    (find_resonance frequencies [] round_to =
      .error (.valueError "attempt to get argmax of an empty sequence")) ∧
    (psd ≠ [] →
      ∃ i, i < psd.length ∧
        (∀ j < psd.length, psd.getD j 0 ≤ psd.getD i 0) ∧
        (∀ j < i, psd.getD j 0 < psd.getD i 0) ∧
        find_resonance frequencies psd round_to =
          .ok (frequencies.getD i 0,
            (pyRound (frequencies.getD i 0 / round_to) : ℚ) * round_to)) := by
  refine ⟨by simp [find_resonance], ?_⟩
  intro hne
  obtain ⟨x, xs, rfl⟩ := List.exists_cons_of_ne_nil hne
  exact ⟨np_argmax (x :: xs), (np_argmax_spec xs x).1, (np_argmax_spec xs x).2.1,
    (np_argmax_spec xs x).2.2, by simp [find_resonance]⟩

/-- C5 witness: concrete instantiation (`frequencies = [10, 20]`,
`psd = [1, 5]`, `round_to = 5`). -/
theorem find_resonance_spec_witness :
    (([1, 5] : List ℚ) ≠ []) ∧
      ∃ i, i < ([1, 5] : List ℚ).length ∧
        (∀ j < ([1, 5] : List ℚ).length,
          ([1, 5] : List ℚ).getD j 0 ≤ ([1, 5] : List ℚ).getD i 0) ∧
        (∀ j < i, ([1, 5] : List ℚ).getD j 0 < ([1, 5] : List ℚ).getD i 0) ∧
        find_resonance [10, 20] [1, 5] 5 =
          .ok (([10, 20] : List ℚ).getD i 0,
            (pyRound (([10, 20] : List ℚ).getD i 0 / 5) : ℚ) * 5) :=
  ⟨by simp, (find_resonance_spec [10, 20] [1, 5] 5).2 (by simp)⟩

/-! ### Claim C6: `find_top_peaks` -/

/-- `np.argsort` modelled: the index list has the same length as the input. -/
theorem np_argsort_length (l : List ℚ) : (np_argsort l).length = l.length := by
  simp [np_argsort, List.length_insertionSort]

/-- `np.argsort` modelled: indices come out sorted by ascending value. -/
theorem np_argsort_sorted (l : List ℚ) :
    (np_argsort l).Pairwise (fun i j => l.getD i 0 ≤ l.getD j 0) := by
  haveI : IsTotal ℕ (fun i j => l.getD i 0 ≤ l.getD j 0) := ⟨fun _ _ => le_total _ _⟩
  haveI : IsTrans ℕ (fun i j => l.getD i 0 ≤ l.getD j 0) := ⟨fun _ _ _ hab hbc => le_trans hab hbc⟩
  exact List.sorted_insertionSort _ _

/-- C6 counterexample: with `n_peaks = 0` the slice `argsort(psd)[-0:]` is
`argsort(psd)[0:]`, the whole array, so `find_top_peaks` returns every pair —
its size is NOT at most the requested count 0. -/
theorem find_top_peaks_zero_returns_all :
    find_top_peaks [10] [1] 0 = [((10 : ℚ), (1 : ℚ))] ∧
      ¬(find_top_peaks [10] [1] 0).length ≤ 0 := by
  have h : find_top_peaks [10] [1] 0 = [((10 : ℚ), (1 : ℚ))] := by
    simp [find_top_peaks, np_argsort, pySliceLast, List.insertionSort, List.orderedInsert]
  rw [h]
  exact ⟨rfl, by simp⟩

/-- C6 (corrected): for every requested count `n_peaks ≥ 1`, `find_top_peaks`
returns `min n_peaks (len psd)` pairs sorted by PSD value descending — in
particular at most `n_peaks` pairs, and all `len psd` pairs (without error)
when `n_peaks > len psd`.  For `n_peaks = 0` the size bound fails (see the
counterexample): the Python slice `[-0:]` selects everything. -/
theorem find_top_peaks_spec (frequencies psd : List ℚ) (n_peaks : ℕ)
    (h1 : 1 ≤ n_peaks) :
    (find_top_peaks frequencies psd n_peaks).length = min n_peaks psd.length ∧
    (find_top_peaks frequencies psd n_peaks).Pairwise (fun p q => q.2 ≤ p.2) := by
  have hlen0 : (np_argsort psd).length = psd.length := np_argsort_length psd
  have hn : n_peaks ≠ 0 := Nat.one_le_iff_ne_zero.mp h1
  constructor
  · simp only [find_top_peaks, List.length_map, List.length_reverse, pySliceLast,
      if_neg hn, List.length_drop, hlen0]
    omega
  · have hrev : ((pySliceLast (np_argsort psd) n_peaks).reverse).Pairwise
        (fun i j => psd.getD j 0 ≤ psd.getD i 0) := by
      rw [List.pairwise_reverse]
      have hsorted := np_argsort_sorted psd
      unfold pySliceLast
      split
      · exact hsorted
      · exact hsorted.sublist (List.drop_sublist _ _)
    simp only [find_top_peaks]
    exact List.Pairwise.map _ (fun a b hab => hab) hrev

/-- C6 witness: concrete instantiation of the corrected claim. -/
theorem find_top_peaks_spec_witness :
    1 ≤ 2 ∧
      ((find_top_peaks [10, 30] [1, 7] 2).length = min 2 (([1, 7] : List ℚ).length) ∧
        (find_top_peaks [10, 30] [1, 7] 2).Pairwise (fun p q => q.2 ≤ p.2)) :=
  ⟨by norm_num, find_top_peaks_spec [10, 30] [1, 7] 2 (by norm_num)⟩

/-! ### Claim C4: `apply_filter` minimum length and length preservation -/

/-- Length of the scipy odd extension: `n` reflected samples on each side. -/
theorem odd_ext_length (x : List ℚ) (n : ℕ) (h : n + 1 ≤ x.length) :
    (odd_ext x n).length = x.length + 2 * n := by
  rw [odd_ext]
  split
  · next h0 => simp [h0]
  · next h0 =>
    simp only [List.length_append, List.length_map, List.length_reverse,
      List.length_take, List.length_drop]
    omega

/-- C4 (confirmed): `apply_filter` delegates to `scipy.signal.filtfilt`, which
fails (the ValueError the spec labels InsufficientSamples) exactly when
`len(data)` is at most `padlen = 3 * max(len(a), len(b))` — the minimum the
forward-backward method requires — and for every longer `data` returns a
filtered sequence of the same length, for any length-preserving `lfilter`
kernel. -/
theorem apply_filter_spec (lfilterFB : List ℚ → List ℚ)
    (hker : ∀ l, (lfilterFB l).length = l.length) (data b a : List ℚ) :
    (data.length ≤ 3 * max (List.length a) (List.length b) →
      apply_filter lfilterFB data b a =
        .error (.valueError "The length of the input vector x must be greater than padlen")) ∧
    (3 * max (List.length a) (List.length b) < data.length →
      ∃ y, apply_filter lfilterFB data b a = .ok y ∧ y.length = data.length) := by
  constructor
  · intro h
    simp only [apply_filter, filtfilt]
    rw [if_pos (by omega)]
  · intro h
    have hcond : ¬data.length ≤ max (List.length a) (List.length b) * 3 := by omega
    simp only [apply_filter, filtfilt, if_neg hcond]
    refine ⟨_, rfl, ?_⟩
    have hext : (odd_ext data (max (List.length a) (List.length b) * 3)).length
        = data.length + 2 * (max (List.length a) (List.length b) * 3) :=
      odd_ext_length _ _ (by omega)
    simp only [List.length_take, List.length_drop, List.length_reverse, hker, hext]
    omega

/-- C4 witness: a length-4 buffer passes the first-order minimum (3) and the
output keeps its length. -/
theorem apply_filter_spec_witness :
    3 * max (List.length ([1] : List ℚ)) (List.length ([1] : List ℚ)) <
        (([1, 2, 3, 4] : List ℚ)).length ∧
      ∃ y, apply_filter id [1, 2, 3, 4] [1] [1] = .ok y ∧
        y.length = (([1, 2, 3, 4] : List ℚ)).length :=
  ⟨by simp, (apply_filter_spec id (fun _ => rfl) [1, 2, 3, 4] [1] [1]).2 (by simp)⟩

/-! ### Claims C2 and C8: shape and content of `perform_fft` results -/

/-- Reading the fftfreq grid below its length. -/
theorem fftfreq_getD (n : ℕ) (d : ℚ) (k : ℕ) (hk : k < n) :
    (fftfreq n d).getD k 0 = (fftfreqNum n k : ℚ) / (d * (n : ℚ)) := by
  rw [fftfreq, List.getD_eq_getElem?_getD, List.getElem?_map, List.getElem?_range hk]
  simp

/-- Filtering `range N` by the window `1 ≤ k ≤ m` yields `range' 1 (min m (N-1))`. -/
theorem filter_range_window (m : ℕ) :
    ∀ N : ℕ, (List.range N).filter (fun k => decide (1 ≤ k) && decide (k ≤ m)) =
      List.range' 1 (min m (N - 1)) := by
  intro N
  induction N with
  | zero => simp
  | succ N ih =>
    rw [List.range_succ, List.filter_append, ih]
    by_cases h1 : 1 ≤ N
    · by_cases h2 : N ≤ m
      · have hf : List.filter (fun k => decide (1 ≤ k) && decide (k ≤ m)) [N] = [N] := by
          simp [List.filter, h1, h2]
        have hmin1 : min m (N - 1) = N - 1 := by omega
        have hmin2 : min m (N + 1 - 1) = N := by omega
        have hco := @List.range'_concat 1 1 (N - 1)
        rw [show N - 1 + 1 = N by omega, show 1 + 1 * (N - 1) = N by omega] at hco
        rw [hf, hmin1, hmin2]
        exact hco.symm
      · have hf : List.filter (fun k => decide (1 ≤ k) && decide (k ≤ m)) [N] = [] := by
          simp [List.filter, h2]
        rw [hf, List.append_nil]
        congr 1
        omega
    · have hN0 : N = 0 := by omega
      subst hN0
      simp

/-- For `fs > 0` the boolean mask `frequencies > 0` used by `perform_fft`
keeps exactly the DFT bins `1 .. (N-1)/2`. -/
theorem pos_idx_eq (N : ℕ) (fs : ℚ) (hfs : 0 < fs) :
    (List.range N).filter (fun k => decide (0 < (fftfreq N (1 / fs)).getD k 0)) =
      List.range' 1 ((N - 1) / 2) := by
  have hden : 0 < (1 / fs) * (N : ℚ) ∨ N = 0 := by
    rcases Nat.eq_zero_or_pos N with h | h
    · exact Or.inr h
    · exact Or.inl (by positivity)
  rcases hden with hden | hzero
  · have hcongr : ∀ k ∈ List.range N,
        (decide (0 < (fftfreq N (1 / fs)).getD k 0)) =
          (decide (1 ≤ k) && decide (k ≤ (N - 1) / 2)) := by
      intro k hk
      have hkN : k < N := List.mem_range.mp hk
      rw [fftfreq_getD N (1 / fs) k hkN, ← Bool.decide_and]
      apply decide_eq_decide.mpr
      have hdiv : 0 < (fftfreqNum N k : ℚ) / ((1 / fs) * (N : ℚ)) ↔
          0 < (fftfreqNum N k : ℚ) := by
        rw [div_pos_iff]
        constructor
        · rintro (⟨hp, _⟩ | ⟨_, hd⟩)
          · exact hp
          · linarith
        · exact fun hp => Or.inl ⟨hp, hden⟩
      rw [hdiv, show ((fftfreqNum N k : ℚ)) = ((fftfreqNum N k : ℤ) : ℚ) from rfl,
        Int.cast_pos, fftfreqNum]
      split
      · next hle => constructor
                    · intro hp
                      exact ⟨by omega, hle⟩
                    · intro hp
                      omega
      · next hgt => constructor
                    · intro hp
                      omega
                    · intro hp
                      omega
    rw [List.filter_congr hcongr, filter_range_window ((N - 1) / 2) N]
    congr 1
    omega
  · subst hzero
    simp

/-- For `fs > 0` and non-empty data `perform_fft` succeeds with: frequencies
`k / ((1/fs)·N)` for `k = 1 .. (N-1)/2`, magnitudes `|X[k]|` over those same
kept bins, and psd the elementwise square of the magnitudes. -/
theorem perform_fft_ok (npfft : List ℚ → List (ℚ × ℚ)) (npAbs : ℚ × ℚ → ℚ)
    (data : List ℚ) (fs : ℚ) (hfs : 0 < fs) (hne : data ≠ []) :
    perform_fft npfft npAbs data fs =
      .ok ((List.range' 1 ((data.length - 1) / 2)).map
             (fun k : ℕ => (k : ℚ) / ((1 / fs) * (data.length : ℚ))),
           (List.range' 1 ((data.length - 1) / 2)).map
             (fun k => npAbs ((npfft data).getD k (0, 0))),
           ((List.range' 1 ((data.length - 1) / 2)).map
             (fun k => npAbs ((npfft data).getD k (0, 0)))).map (fun m => m ^ 2)) := by
  have hN : 1 ≤ data.length := List.length_pos.mpr hne
  have hfs0 : fs ≠ 0 := ne_of_gt hfs
  have h0 : ¬data.length = 0 := by omega
  simp only [perform_fft, if_neg hfs0, if_neg h0]
  rw [pos_idx_eq data.length fs hfs]
  have hA : (List.range' 1 ((data.length - 1) / 2)).map
        (fun k => (fftfreq data.length (1 / fs)).getD k 0) =
      (List.range' 1 ((data.length - 1) / 2)).map
        (fun k : ℕ => (k : ℚ) / ((1 / fs) * (data.length : ℚ))) := by
    apply List.map_congr_left
    intro k hk
    rw [List.mem_range'] at hk
    obtain ⟨i, hi, rfl⟩ := hk
    have hk1 : 1 ≤ 1 + 1 * i := by omega
    have hk2 : 1 + 1 * i ≤ (data.length - 1) / 2 := by omega
    have hkN : 1 + 1 * i < data.length := by omega
    rw [fftfreq_getD data.length (1 / fs) (1 + 1 * i) hkN, fftfreqNum, if_pos hk2]
    norm_cast
  rw [hA]

/-- C2 counterexample: at the even length `N = 2` the mask `frequencies > 0`
keeps zero bins (the grid is `[0, -fs/2]`), so all three results are empty —
not of length `floor(N/2) = 1`. -/
theorem perform_fft_even_length_count :
    perform_fft (fun l => l.map (fun x => (x, 0))) (fun p => p.1) [1, 1] 1 =
      .ok ([], [], []) ∧ ([1, 1] : List ℚ).length / 2 = 1 := by
  constructor
  · norm_num [perform_fft, fftfreq, fftfreqNum, List.range_succ, List.filter]
  · simp

/-- C2 (corrected): for every non-empty `data` of length N and `fs > 0`, the
three sequences returned by `perform_fft` all have exactly `(N-1)/2`
elements (the strictly-positive DFT bins) — not `floor(N/2)`, which differs
at every even N. -/
theorem perform_fft_lengths (npfft : List ℚ → List (ℚ × ℚ)) (npAbs : ℚ × ℚ → ℚ)
    (data : List ℚ) (fs : ℚ) (hfs : 0 < fs) (hne : data ≠ []) :
    ∃ f m p, perform_fft npfft npAbs data fs = .ok (f, m, p) ∧
      f.length = (data.length - 1) / 2 ∧ m.length = (data.length - 1) / 2 ∧
      p.length = (data.length - 1) / 2 := by
  refine ⟨_, _, _, perform_fft_ok npfft npAbs data fs hfs hne, ?_, ?_, ?_⟩ <;>
    simp [List.length_map, List.length_range']

/-- C2 witness: three samples at `fs = 1` give `(3-1)/2 = 1` bin in each
sequence. -/
theorem perform_fft_lengths_witness :
    (0 : ℚ) < 1 ∧ ([1, 2, 3] : List ℚ) ≠ [] ∧
      ∃ f m p, perform_fft (fun l => l.map (fun x => (x, 0))) (fun p => p.1)
          [1, 2, 3] 1 = .ok (f, m, p) ∧
        f.length = (([1, 2, 3] : List ℚ).length - 1) / 2 ∧
        m.length = (([1, 2, 3] : List ℚ).length - 1) / 2 ∧
        p.length = (([1, 2, 3] : List ℚ).length - 1) / 2 :=
  ⟨by norm_num, by simp,
   perform_fft_lengths (fun l => l.map (fun x => (x, 0))) (fun p => p.1)
     [1, 2, 3] 1 (by norm_num) (by simp)⟩

/-- C8 (confirmed): for every non-empty `data` and `fs > 0`, `perform_fft`
returns `psd[i] = magnitude[i] ^ 2` for every index, and a strictly
increasing, strictly positive frequency sequence. -/
theorem perform_fft_psd_and_freqs (npfft : List ℚ → List (ℚ × ℚ))
    (npAbs : ℚ × ℚ → ℚ) (data : List ℚ) (fs : ℚ) (hfs : 0 < fs) (hne : data ≠ []) :
    ∃ f m p, perform_fft npfft npAbs data fs = .ok (f, m, p) ∧
      (∀ i < p.length, p.getD i 0 = (m.getD i 0) ^ 2) ∧
      f.Pairwise (fun u v => u < v) ∧ (∀ x ∈ f, 0 < x) := by
  have hden : 0 < (1 / fs) * (data.length : ℚ) := by
    have hN : 1 ≤ data.length := List.length_pos.mpr hne
    have : (1 : ℚ) ≤ (data.length : ℚ) := by exact_mod_cast hN
    positivity
  refine ⟨_, _, _, perform_fft_ok npfft npAbs data fs hfs hne, ?_, ?_, ?_⟩
  · intro i hi
    rw [List.length_map] at hi
    rw [List.getD_eq_getElem?_getD, List.getD_eq_getElem?_getD, List.getElem?_map]
    cases hB : (((List.range' 1 ((data.length - 1) / 2)).map
        (fun k => npAbs ((npfft data).getD k (0, 0))))[i]?) with
    | none =>
      rw [List.getElem?_eq_none_iff] at hB
      omega
    | some v => simp [hB]
  · exact List.Pairwise.map _
      (fun u v huv => (div_lt_div_iff_of_pos_right hden).mpr (by exact_mod_cast huv))
      (List.pairwise_lt_range' 1 _ 1)
  · intro x hx
    rw [List.mem_map] at hx
    obtain ⟨k, hk, rfl⟩ := hx
    rw [List.mem_range'] at hk
    obtain ⟨i, hi, rfl⟩ := hk
    have : (0 : ℚ) < (1 + 1 * i : ℕ) := by
      have : 1 ≤ 1 + 1 * i := by omega
      exact_mod_cast Nat.lt_of_lt_of_le Nat.zero_lt_one this
    exact div_pos this hden

/-- C8 witness: five samples at `fs = 2`. -/
theorem perform_fft_psd_and_freqs_witness :
    (0 : ℚ) < 2 ∧ ([1, 2, 3, 4, 5] : List ℚ) ≠ [] ∧
      ∃ f m p, perform_fft (fun l => l.map (fun x => (x, 0))) (fun p => p.1)
          [1, 2, 3, 4, 5] 2 = .ok (f, m, p) ∧
        (∀ i < p.length, p.getD i 0 = (m.getD i 0) ^ 2) ∧
        f.Pairwise (fun u v => u < v) ∧ (∀ x ∈ f, 0 < x) :=
  ⟨by norm_num, by simp,
   perform_fft_psd_and_freqs (fun l => l.map (fun x => (x, 0))) (fun p => p.1)
     [1, 2, 3, 4, 5] 2 (by norm_num) (by simp)⟩

/-! ### Claim C7: windowed RMS -/

/-- Python slicing at nonnegative, in-range bounds is plain take/drop. -/
theorem pySlice_natCast (l : List ℚ) (a b : ℕ) (hb : b ≤ l.length) (hab : a ≤ b) :
    pySlice l (a : ℤ) (b : ℤ) = (l.drop a).take (b - a) := by
  have hba : pyBound l.length (b : ℤ) = b := by
    simp only [pyBound]
    rw [if_neg (by omega)]
    simp only [Int.toNat_natCast]
    omega
  have haa : pyBound l.length (a : ℤ) = a := by
    simp only [pyBound]
    rw [if_neg (by omega)]
    simp only [Int.toNat_natCast]
    omega
  rw [pySlice, hba, haa, List.drop_take]

/-- C7 (confirmed): for window size `w = floor(fs * window_seconds) ≥ 1` and
`fs > 0`, `compute_rms_windowed` returns exactly `len(data) / w` windows
(trailing remainder discarded): window `i` covers samples
`i*w .. (i+1)*w - 1` with RMS `sqrt(mean(window²))` and timestamp
`(i + 1/2) * w / fs`, and the overall RMS is `sqrt(mean(data²))` over the
entire original signal. -/
theorem compute_rms_windowed_spec (npsqrt : ℚ → ℚ) (data : List ℚ)
    (fs window_seconds : ℚ) (hfs : 0 < fs) (hW : 1 ≤ ⌊fs * window_seconds⌋) :
    compute_rms_windowed npsqrt data fs window_seconds =
      .ok ((List.range (data.length / (⌊fs * window_seconds⌋).toNat)).map
             (fun i : ℕ => ((i : ℚ) + 1/2) * ((⌊fs * window_seconds⌋ : ℤ) : ℚ) / fs),
           (List.range (data.length / (⌊fs * window_seconds⌋).toNat)).map
             (fun i : ℕ => npsqrt (npMean
               (((data.drop (i * (⌊fs * window_seconds⌋).toNat)).take
                 ((⌊fs * window_seconds⌋).toNat)).map (fun v => v ^ 2)))),
           npsqrt (npMean (data.map (fun v => v ^ 2)))) := by
  have hq1 : (1 : ℚ) ≤ fs * window_seconds := by exact_mod_cast Int.le_floor.mp hW
  have hq0 : ¬fs * window_seconds < 0 := by linarith
  have hpy : pyInt (fs * window_seconds) = ⌊fs * window_seconds⌋ := by
    rw [pyInt, if_neg hq0]
  set W : ℤ := ⌊fs * window_seconds⌋ with hWdef
  set w : ℕ := W.toNat with hwdef
  have hWw : (w : ℤ) = W := Int.toNat_of_nonneg (by omega)
  have hWne : ¬W = 0 := by omega
  have hfdiv : Int.fdiv (data.length : ℤ) W = ((data.length / w : ℕ) : ℤ) := by
    rw [← hWw, Int.fdiv_eq_tdiv (Int.natCast_nonneg _) (Int.natCast_nonneg _)]
    exact (Int.ofNat_tdiv _ _).symm
  simp only [compute_rms_windowed, hpy]
  rw [if_neg hWne, hfdiv]
  have hrange : pyRangeZ ((data.length / w : ℕ) : ℤ) =
      (List.range (data.length / w)).map (fun i : ℕ => (i : ℤ)) := by
    simp only [pyRangeZ, Int.toNat_natCast]
  rw [hrange, List.map_map, List.map_map]
  simp only [Except.ok.injEq, Prod.mk.injEq]
  refine ⟨?_, ?_, trivial⟩
  · apply List.map_congr_left
    intro i _
    simp only [Function.comp_apply]
    push_cast
    ring
  · apply List.map_congr_left
    intro i hi
    have hiw : i < data.length / w := List.mem_range.mp hi
    have hub : (i + 1) * w ≤ data.length :=
      le_trans (Nat.mul_le_mul_right w (Nat.succ_le_of_lt hiw)) (Nat.div_mul_le_self _ _)
    have hab : i * w ≤ (i + 1) * w := Nat.mul_le_mul_right w (Nat.le_succ i)
    simp only [Function.comp_apply]
    rw [show ((i : ℤ) * W) = ((i * w : ℕ) : ℤ) by rw [← hWw]; push_cast; ring,
      show (((i : ℤ) + 1) * W) = (((i + 1) * w : ℕ) : ℤ) by rw [← hWw]; push_cast; ring,
      pySlice_natCast data (i * w) ((i + 1) * w) hub hab,
      Nat.succ_mul, Nat.add_sub_cancel_left]

/-- C7 witness: four samples at `fs = 2` with one-second windows give two
windows of two samples each. -/
theorem compute_rms_windowed_spec_witness :
    (0 : ℚ) < 2 ∧ 1 ≤ ⌊(2 : ℚ) * 1⌋ ∧
      compute_rms_windowed (fun q => q) [1, 2, 3, 4] 2 1 =
        .ok ((List.range (([1, 2, 3, 4] : List ℚ).length / (⌊(2 : ℚ) * 1⌋).toNat)).map
               (fun i : ℕ => ((i : ℚ) + 1/2) * ((⌊(2 : ℚ) * 1⌋ : ℤ) : ℚ) / 2),
             (List.range (([1, 2, 3, 4] : List ℚ).length / (⌊(2 : ℚ) * 1⌋).toNat)).map
               (fun i : ℕ => (fun q => q) (npMean
                 (((([1, 2, 3, 4] : List ℚ).drop (i * (⌊(2 : ℚ) * 1⌋).toNat)).take
                   ((⌊(2 : ℚ) * 1⌋).toNat)).map (fun v => v ^ 2)))),
             (fun q => q) (npMean (([1, 2, 3, 4] : List ℚ).map (fun v => v ^ 2)))) :=
  ⟨by norm_num, by norm_num,
   compute_rms_windowed_spec (fun q => q) [1, 2, 3, 4] 2 1 (by norm_num) (by norm_num)⟩

end SigProc
